import Mathlib

/-!
# Verification of the waddell signaling relay

A shallow embedding in Lean 4 of the waddell repository: the `PeerId`
serialization from `common.go`, and (modelled from the spec, since only
their declarations and tests are in the sources at hand) the frame codec
and the server relay engine.  Byte buffers are `List Nat` whose elements
stand for Go `byte` values; Go `uint64` values are `Nat` with the bound
`< 2^64` carried as an explicit hypothesis where it matters.
-/

namespace Waddell

/-! ## The buuid library interface (PeerId serialization)

`common.go` delegates all PeerId serialization to `github.com/getlantern/buuid`,
an external collaborator which the spec fixes at the interface boundary:
a 128-bit id transported as two little-endian 64-bit words (16 bytes),
with the canonical UUID text form.
-/

namespace buuid

/-- Number of bytes in the serialized form of an id (`buuid.EncodedLength`). -/
def EncodedLength : Nat := 16

/-- Modelled from the spec: a 128-bit identifier held as two 64-bit words
(`buuid.ID`); `lo` is the first (low) word on the wire, `hi` the second. -/
structure ID where
  lo : Nat
  hi : Nat
deriving DecidableEq, Repr

/-- Little-endian serialization of a 64-bit word into 8 bytes. -/
def le64 (x : Nat) : List Nat :=
  [x % 256, x / 256 % 256, x / 256 ^ 2 % 256, x / 256 ^ 3 % 256,
   x / 256 ^ 4 % 256, x / 256 ^ 5 % 256, x / 256 ^ 6 % 256, x / 256 ^ 7 % 256]

/-- Little-endian deserialization of a list of bytes into a word. -/
def de64 (bs : List Nat) : Nat :=
  bs.foldr (fun b acc => b + 256 * acc) 0

/-- Modelled from the spec: `buuid.ID.Write` puts the two little-endian
64-bit words into the first 16 bytes of the buffer `b`, failing when the
buffer is shorter than `EncodedLength`. -/
def ID.Write (id : ID) (b : List Nat) : Except String (List Nat) :=
  if b.length < EncodedLength then .error "buffer too short"
  else .ok (le64 id.lo ++ le64 id.hi ++ b.drop EncodedLength)

/-- Modelled from the spec: `buuid.Read` decodes the two little-endian
64-bit words from the first 16 bytes of the buffer. -/
def Read (b : List Nat) : Except String ID :=
  if b.length < EncodedLength then .error "buffer too short"
  else .ok ⟨de64 (b.take 8), de64 ((b.drop 8).take 8)⟩

/-- Modelled from the spec: `buuid.ID.ToBytes` allocates a fresh 16-byte
buffer and writes the id into it. -/
def ID.ToBytes (id : ID) : List Nat :=
  match id.Write (List.replicate EncodedLength 0) with
  | .ok bs => bs
  | .error _ => []

end buuid

/-- `PeerId` is an identifier for a waddell peer (`type PeerId buuid.ID`). -/
abbrev PeerId := buuid.ID

/-- `PEER_ID_LENGTH = buuid.EncodedLength` from `common.go`. -/
def PEER_ID_LENGTH : Nat := buuid.EncodedLength

/-- `WADDELL_OVERHEAD = 18`: bytes of overhead imposed by waddell. -/
def WADDELL_OVERHEAD : Nat := 18

/-- `keepAlive = []byte{'k'}` from `common.go`. -/
def keepAlive : List Nat := ['k'.toNat]

/-- `readPeerId` from `common.go`: decode a `PeerId` from a byte buffer. -/
def readPeerId (b : List Nat) : Except String PeerId :=
  buuid.Read b

/-- `(id PeerId) write(b)` from `common.go`: serialize into the buffer,
returning the buffer contents after the write. -/
def PeerId.write (id : PeerId) (b : List Nat) : Except String (List Nat) :=
  buuid.ID.Write id b

/-- `(id PeerId) toBytes()` from `common.go`. -/
def PeerId.toBytes (id : PeerId) : List Nat :=
  buuid.ID.ToBytes id

/-! ### Round-trip lemmas for the 64-bit word serialization -/

theorem de64_le64 {x : Nat} (hx : x < 2 ^ 64) : buuid.de64 (buuid.le64 x) = x := by
  simp only [buuid.le64, buuid.de64, List.foldr]
  omega

theorem le64_length (x : Nat) : (buuid.le64 x).length = 8 := by
  simp [buuid.le64]

theorem le64_all_lt (x : Nat) : ∀ b ∈ buuid.le64 x, b < 256 := by
  intro b hb
  simp only [buuid.le64, List.mem_cons, List.not_mem_nil, or_false] at hb
  rcases hb with h | h | h | h | h | h | h | h <;> subst h <;> exact Nat.mod_lt _ (by omega)

theorem toBytes_eq (id : PeerId) :
    id.toBytes = buuid.le64 id.lo ++ buuid.le64 id.hi := by
  simp [PeerId.toBytes, buuid.ID.ToBytes, buuid.ID.Write, buuid.EncodedLength]

theorem toBytes_length (id : PeerId) : id.toBytes.length = 16 := by
  simp [toBytes_eq, le64_length]

theorem write_eq (id : PeerId) (b : List Nat) (hb : 16 ≤ b.length) :
    id.write b = .ok (buuid.le64 id.lo ++ buuid.le64 id.hi ++ b.drop 16) := by
  simp [PeerId.write, buuid.ID.Write, buuid.EncodedLength, Nat.not_lt.mpr hb]

theorem readPeerId_toBytes (id : PeerId) (hlo : id.lo < 2 ^ 64) (hhi : id.hi < 2 ^ 64) :
    readPeerId id.toBytes = .ok id := by
  have hlen : (buuid.le64 id.lo).length = 8 := le64_length _
  simp only [readPeerId, buuid.Read, toBytes_eq, buuid.EncodedLength]
  rw [if_neg (by simp [List.length_append, le64_length])]
  rw [List.take_append_of_le_length (by omega), List.take_of_length_le (by omega),
    List.drop_append_of_le_length (by omega)]
  rw [List.drop_of_length_le (by omega), List.nil_append,
    List.take_of_length_le (by simp [le64_length]),
    de64_le64 hlo, de64_le64 hhi]

/-! ## Claim C1: PeerId byte round-trip -/

/-- C1: for every `PeerId` and every 16-byte buffer `b`, once `id.write b`
succeeds, decoding the written buffer with `readPeerId` returns the original
id with no error. -/
theorem readPeerId_write_roundTrip (id : PeerId) (b : List Nat)
    (hlo : id.lo < 2 ^ 64) (hhi : id.hi < 2 ^ 64) (hb : b.length = 16)
    (b' : List Nat) (hw : id.write b = .ok b') :
    readPeerId b' = .ok id := by
  rw [write_eq id b (by omega)] at hw
  rw [List.drop_of_length_le (by omega), List.append_nil] at hw
  cases hw
  rw [← toBytes_eq]
  exact readPeerId_toBytes id hlo hhi

/-- Witness for C1 at a concrete id and the all-zero 16-byte buffer. -/
theorem readPeerId_write_roundTrip_witness :
    readPeerId (buuid.le64 3 ++ buuid.le64 5) = .ok ⟨3, 5⟩ :=
  readPeerId_write_roundTrip ⟨3, 5⟩ (List.replicate 16 0) (by decide) (by decide)
    (by decide) (buuid.le64 3 ++ buuid.le64 5) (by rfl)

/-! ## Claim C10: the two encoding paths agree -/

/-- C10: for every `PeerId` and every 16-byte buffer `b`, the bytes left in
`b` by `id.write b` are exactly `id.toBytes`: the two encoding paths agree
byte for byte. -/
theorem write_eq_toBytes (id : PeerId) (b : List Nat) (hb : b.length = 16) :
    id.write b = .ok id.toBytes := by
  rw [write_eq id b (by omega), List.drop_of_length_le (by omega), List.append_nil,
    toBytes_eq]

/-- Witness for C10 at a concrete id and buffer. -/
theorem write_eq_toBytes_witness :
    PeerId.write ⟨7, 11⟩ (List.replicate 16 255) = .ok (PeerId.toBytes ⟨7, 11⟩) :=
  write_eq_toBytes ⟨7, 11⟩ (List.replicate 16 255) (by decide)

/-! ## Frame codec

Modelled from the spec: the on-wire frame is `le16(16+len(body)) ||
address[16] || body`, the length counting the bytes after the length field.
-/

/-- Little-endian serialization of a 16-bit length into 2 bytes. -/
def le16 (x : Nat) : List Nat := [x % 256, x / 256 % 256]

/-- Modelled from the spec: `encodeFrame(address, body)` produces
`le16(16+len(body)) || address[16] || body`. -/
def encodeFrame (address : PeerId) (body : List Nat) : List Nat :=
  le16 (PEER_ID_LENGTH + body.length) ++ address.toBytes ++ body

/-- Outcome of decoding one frame from the head of a byte stream. -/
inductive DecodeResult where
  | eof
  | protocolError (msg : String)
  | ok (address : PeerId) (body : List Nat) (rest : List Nat)
deriving DecidableEq, Repr

/-- The 16-bit little-endian length declared by the first two bytes of a
stream (0 when fewer than two bytes are available). -/
def declaredLength : List Nat → Nat
  | b0 :: b1 :: _ => b0 % 256 + 256 * (b1 % 256)
  | _ => 0

/-- Modelled from the spec: `decodeFrame(stream)` reads exactly one frame:
a clean EOF at a frame boundary, a `ProtocolError` when the declared length
is out of range or the stream ends inside a frame, and otherwise the
address, the body and the remaining stream. -/
def decodeFrame (s : List Nat) : DecodeResult :=
  match s with
  | [] => .eof
  | [_] => .protocolError "short read in frame length"
  | b0 :: b1 :: rest =>
    let len := b0 % 256 + 256 * (b1 % 256)
    if len < PEER_ID_LENGTH ∨ 65535 < len then .protocolError "invalid frame length"
    else if rest.length < len then .protocolError "short read inside frame"
    else
      match readPeerId (rest.take PEER_ID_LENGTH) with
      | .ok address => .ok address ((rest.take len).drop PEER_ID_LENGTH) (rest.drop len)
      | .error msg => .protocolError msg

/-- Decoding the encoding of an in-limit frame, followed by any remaining
stream, recovers the address, the body and the remainder. -/
theorem decodeFrame_encodeFrame_append (address : PeerId) (body rest : List Nat)
    (hlo : address.lo < 2 ^ 64) (hhi : address.hi < 2 ^ 64)
    (hbody : body.length ≤ 65519) :
    decodeFrame (encodeFrame address body ++ rest) = .ok address body rest := by
  have htb : address.toBytes.length = 16 := toBytes_length address
  have hL : PEER_ID_LENGTH + body.length ≤ 65535 := by
    simp only [PEER_ID_LENGTH, buuid.EncodedLength]; omega
  set L := PEER_ID_LENGTH + body.length with hLdef
  have henc : encodeFrame address body ++ rest =
      L % 256 :: L / 256 % 256 :: (address.toBytes ++ body ++ rest) := by
    simp [encodeFrame, le16, List.append_assoc]
  rw [henc]
  have hlen : L % 256 % 256 + 256 * (L / 256 % 256 % 256) = L := by omega
  simp only [decodeFrame, hlen]
  have hPL : PEER_ID_LENGTH = 16 := rfl
  have hrestlen : (address.toBytes ++ body ++ rest).length = L + rest.length := by
    simp only [List.length_append, htb]
    omega
  rw [if_neg (by omega), if_neg (by omega)]
  have htake16 : (address.toBytes ++ body ++ rest).take PEER_ID_LENGTH =
      address.toBytes := by
    rw [List.append_assoc, hPL, List.take_append_of_le_length (by omega),
      List.take_of_length_le (by omega)]
  have htakeL : (address.toBytes ++ body ++ rest).take L = address.toBytes ++ body := by
    rw [List.take_append_of_le_length (by simp [htb]; omega),
      List.take_of_length_le (by simp [htb]; omega)]
  have hdropL : (address.toBytes ++ body ++ rest).drop L = rest := by
    rw [List.drop_append_of_le_length (by simp [htb]; omega)]
    have : (address.toBytes ++ body).drop L = [] :=
      List.drop_of_length_le (by simp [htb]; omega)
    rw [this, List.nil_append]
  rw [htake16, readPeerId_toBytes address hlo hhi, htakeL, hdropL, hPL,
    List.drop_append_of_le_length (by omega), List.drop_of_length_le (by omega),
    List.nil_append]

/-! ## Claim C5: frame round-trip -/

/-- C5: for every address and every body of at most 65519 bytes, decoding
the bytes produced by `encodeFrame` yields exactly that address and body
(and an empty remainder). -/
theorem decodeFrame_encodeFrame (address : PeerId) (body : List Nat)
    (hlo : address.lo < 2 ^ 64) (hhi : address.hi < 2 ^ 64)
    (hbody : body.length ≤ 65519) :
    decodeFrame (encodeFrame address body) = .ok address body [] := by
  have h := decodeFrame_encodeFrame_append address body [] hlo hhi hbody
  rwa [List.append_nil] at h

/-- Witness for C5 at a concrete address and body. -/
theorem decodeFrame_encodeFrame_witness :
    decodeFrame (encodeFrame ⟨1, 2⟩ [42, 43]) = .ok ⟨1, 2⟩ [42, 43] [] :=
  decodeFrame_encodeFrame ⟨1, 2⟩ [42, 43] (by decide) (by decide) (by decide)

/-! ## Claim C3: the 18-byte overhead and the 65519-byte body limit -/

/-- C3: the per-frame overhead is exactly 18 bytes (2-byte length field plus
16-byte address), `WADDELL_OVERHEAD = 18`, and the maximum body size is
exactly `65535 - 16 = 65519` bytes: a body fits a frame's 16-bit length
field exactly when it has at most 65519 bytes. -/
theorem waddell_overhead_spec (address : PeerId) (body : List Nat) :
    WADDELL_OVERHEAD = 18 ∧
    WADDELL_OVERHEAD = 2 + PEER_ID_LENGTH ∧
    (encodeFrame address body).length = WADDELL_OVERHEAD + body.length ∧
    65535 - PEER_ID_LENGTH = 65519 ∧
    (body.length ≤ 65519 ↔ PEER_ID_LENGTH + body.length ≤ 65535) := by
  refine ⟨rfl, rfl, ?_, rfl, ?_⟩
  · simp only [encodeFrame, le16, List.length_append, List.length_cons,
      List.length_nil, toBytes_length, WADDELL_OVERHEAD]
  · simp only [PEER_ID_LENGTH, buuid.EncodedLength]
    omega

/-! ## Claim C8: decodeFrame error behavior -/

/-- C8: `decodeFrame` yields a `ProtocolError` exactly when the declared
16-bit length is below 16 or above 65535, or a non-empty stream ends before
the frame is complete; the empty stream is a clean EOF; and every
well-formed complete frame decodes successfully. -/
theorem decodeFrame_protocolError_characterization (s : List Nat)
    (address : PeerId) (body rest : List Nat)
    (hlo : address.lo < 2 ^ 64) (hhi : address.hi < 2 ^ 64)
    (hbody : body.length ≤ 65519) :
    decodeFrame (encodeFrame address body ++ rest) = .ok address body rest ∧
    decodeFrame [] = .eof ∧
    ((∃ msg, decodeFrame s = .protocolError msg) ↔
      s ≠ [] ∧ (s.length < 2 ∨ declaredLength s < PEER_ID_LENGTH ∨
        65535 < declaredLength s ∨ s.length < 2 + declaredLength s)) := by
  refine ⟨decodeFrame_encodeFrame_append address body rest hlo hhi hbody, rfl, ?_⟩
  have hPL : PEER_ID_LENGTH = 16 := rfl
  match s with
  | [] => simp [decodeFrame]
  | [b] => simp [decodeFrame, declaredLength, hPL]
  | b0 :: b1 :: r =>
    simp only [decodeFrame, declaredLength]
    by_cases h1 : b0 % 256 + 256 * (b1 % 256) < PEER_ID_LENGTH ∨
        65535 < b0 % 256 + 256 * (b1 % 256)
    · rw [if_pos h1]
      refine iff_of_true ⟨"invalid frame length", rfl⟩ ⟨by simp, ?_⟩
      rcases h1 with h | h
      · exact Or.inr (Or.inl h)
      · exact Or.inr (Or.inr (Or.inl h))
    · rw [if_neg h1]
      by_cases h2 : r.length < b0 % 256 + 256 * (b1 % 256)
      · rw [if_pos h2]
        refine iff_of_true ⟨"short read inside frame", rfl⟩ ⟨by simp, ?_⟩
        right; right; right
        simp only [List.length_cons]
        omega
      · rw [if_neg h2]
        rw [not_or, hPL] at h1
        have hr16 : ¬ (r.take PEER_ID_LENGTH).length < buuid.EncodedLength := by
          simp only [List.length_take, PEER_ID_LENGTH, buuid.EncodedLength]
          omega
        rw [readPeerId, buuid.Read, if_neg hr16]
        refine iff_of_false (by simp) ?_
        rintro ⟨-, h | h | h | h⟩
        · simp only [List.length_cons] at h; omega
        · omega
        · omega
        · simp only [List.length_cons] at h; omega

/-- Witness for C8: a well-formed frame with trailing stream decodes, the
empty stream is EOF, and a one-byte stream is a protocol error. -/
theorem decodeFrame_protocolError_characterization_witness :
    decodeFrame (encodeFrame ⟨1, 2⟩ [9] ++ [0]) = .ok ⟨1, 2⟩ [9] [0] ∧
    decodeFrame [] = .eof ∧
    ((∃ msg, decodeFrame [5] = .protocolError msg) ↔
      [5] ≠ [] ∧ (([5] : List Nat).length < 2 ∨ declaredLength [5] < PEER_ID_LENGTH ∨
        65535 < declaredLength [5] ∨ ([5] : List Nat).length < 2 + declaredLength [5])) :=
  decodeFrame_protocolError_characterization [5] ⟨1, 2⟩ [9] [0]
    (by decide) (by decide) (by decide)

/-! ## Server relay engine

Modelled from the spec (sections 4.2–4.3): the registry of connected ids,
per-connection outbound queues with a fixed capacity and a non-blocking
offer, and the reader-loop step that drops keep-alives, rewrites the
address to the sender's id and enqueues on the recipient's queue.
-/

/-- A decoded frame: a 16-byte address and a body. -/
structure Frame where
  addr : PeerId
  body : List Nat
deriving DecidableEq, Repr

/-- The all-zero peer id carried by keep-alive frames. -/
def zeroId : PeerId := ⟨0, 0⟩

/-- A keep-alive frame has the all-zero address and the single-byte
`keepAlive` body. -/
def isKeepAliveFrame (f : Frame) : Prop :=
  f.addr = zeroId ∧ f.body = keepAlive

instance : DecidablePred isKeepAliveFrame :=
  fun f => inferInstanceAs (Decidable (f.addr = zeroId ∧ f.body = keepAlive))

/-- Modelled from the spec: the recommended outbound queue capacity
(spec 4.3.3: a small fixed capacity, recommended 100 frames). -/
def queueCapacity : Nat := 100

/-- Modelled from the spec: the server's shared state — the registry of
currently connected peer ids and each connection's outbound queue. -/
structure ServerState where
  registry : List PeerId
  queues : PeerId → List Frame

/-- Modelled from the spec (4.3.2–4.3.3): one reader-loop step on behalf of
`sender`.  A keep-alive frame is dropped; an unknown recipient drops the
frame silently; otherwise the frame's address is rewritten to the sender's
id and offered to the recipient's queue without blocking — when the queue
is full the frame is dropped and the unresponsive recipient is closed. -/
def handleFrame (st : ServerState) (sender : PeerId) (f : Frame) : ServerState :=
  if isKeepAliveFrame f then st
  else if f.addr ∈ st.registry then
    if (st.queues f.addr).length < queueCapacity then
      { st with queues :=
          Function.update st.queues f.addr (st.queues f.addr ++ [⟨sender, f.body⟩]) }
    else
      { st with registry := st.registry.erase f.addr }
  else st

/-- The in-process message the client's Receive delivers for a frame:
`Message{from = frame.address, body = frame.body}`. -/
structure Message where
  From : PeerId
  Body : List Nat
deriving DecidableEq, Repr

/-- Modelled from the spec (4.4): `receive()` turns one frame into a
`Message` whose `From` is the frame's address. -/
def receiveMessage (f : Frame) : Message :=
  ⟨f.addr, f.body⟩

/-- Run the server reader over a trace of (sender, frame) events. -/
def runServer (st : ServerState) (events : List (PeerId × Frame)) : ServerState :=
  events.foldl (fun s e => handleFrame s e.1 e.2) st

/-- Every frame in a queue after one relay step was already there, or is the
sender-rewritten copy of a non-keep-alive incoming frame. -/
theorem mem_queues_handleFrame {st : ServerState} {sender : PeerId} {f : Frame}
    {r : PeerId} {g : Frame} (hg : g ∈ (handleFrame st sender f).queues r) :
    g ∈ st.queues r ∨ (¬ isKeepAliveFrame f ∧ g = ⟨sender, f.body⟩) := by
  unfold handleFrame at hg
  by_cases hka : isKeepAliveFrame f
  · rw [if_pos hka] at hg
    exact Or.inl hg
  · rw [if_neg hka] at hg
    by_cases hreg : f.addr ∈ st.registry
    · rw [if_pos hreg] at hg
      by_cases hfull : (st.queues f.addr).length < queueCapacity
      · rw [if_pos hfull] at hg
        simp only [Function.update_apply] at hg
        by_cases hr : r = f.addr
        · rw [if_pos hr, List.mem_append, List.mem_singleton] at hg
          rcases hg with hg | hg
          · exact Or.inl (hr ▸ hg)
          · exact Or.inr ⟨hka, hg⟩
        · rw [if_neg hr] at hg
          exact Or.inl hg
      · rw [if_neg hfull] at hg
        exact Or.inl hg
    · rw [if_neg hreg] at hg
      exact Or.inl hg

/-- Generalization of the keep-alive exclusion to runs from any state. -/
theorem mem_queues_runServer {events : List (PeerId × Frame)} {st : ServerState}
    {r : PeerId} {g : Frame} (hg : g ∈ (runServer st events).queues r) :
    g ∈ st.queues r ∨ ∃ e ∈ events, ¬ isKeepAliveFrame e.2 ∧ g = ⟨e.1, e.2.body⟩ := by
  induction events generalizing st with
  | nil => exact Or.inl hg
  | cons e es ih =>
    have hg' : g ∈ (runServer (handleFrame st e.1 e.2) es).queues r := hg
    rcases ih hg' with h | ⟨e', he', h⟩
    · rcases mem_queues_handleFrame h with h' | ⟨hka, h'⟩
      · exact Or.inl h'
      · exact Or.inr ⟨e, List.mem_cons_self e es, hka, h'⟩
    · exact Or.inr ⟨e', List.mem_cons_of_mem e he', h⟩

/-! ## Claim C4: the keep-alive sentinel -/

/-- C4: the keep-alive body is exactly the single byte `0x6B` (`'k'`), and
the server accepts a keep-alive frame without routing it anywhere: the
relay step returns the state unchanged, so no peer's queue gains it. -/
theorem keepAlive_spec (st : ServerState) (sender : PeerId) (f : Frame)
    (hka : isKeepAliveFrame f) :
    keepAlive = [0x6B] ∧ handleFrame st sender f = st := by
  refine ⟨by decide, ?_⟩
  rw [handleFrame, if_pos hka]

/-- Witness for C4 at a concrete state and keep-alive frame. -/
theorem keepAlive_spec_witness :
    keepAlive = [0x6B] ∧
    handleFrame ⟨[⟨9, 9⟩], fun _ => []⟩ ⟨1, 2⟩ ⟨zeroId, keepAlive⟩
      = ⟨[⟨9, 9⟩], fun _ => []⟩ :=
  keepAlive_spec ⟨[⟨9, 9⟩], fun _ => []⟩ ⟨1, 2⟩ ⟨zeroId, keepAlive⟩ ⟨rfl, rfl⟩

/-! ## Claim C6: received From equals the sender's id -/

/-- C6: every frame newly present in any queue after a relay step is the
incoming frame rewritten to carry the sender's id, so the `Message` the
recipient receives from it has `From` equal to the sender's self-id. -/
theorem received_from_eq_sender (st : ServerState) (sender : PeerId) (f : Frame)
    (r : PeerId) (g : Frame)
    (hg : g ∈ (handleFrame st sender f).queues r) (hnew : g ∉ st.queues r) :
    g.addr = sender ∧ g.body = f.body ∧ (receiveMessage g).From = sender := by
  rcases mem_queues_handleFrame hg with h | ⟨-, rfl⟩
  · exact absurd h hnew
  · exact ⟨rfl, rfl, rfl⟩

/-- Witness for C6: a concrete relay step delivering to a registered peer. -/
theorem received_from_eq_sender_witness :
    (Frame.mk ⟨1, 2⟩ [5]).addr = ⟨1, 2⟩ ∧ (Frame.mk ⟨1, 2⟩ [5]).body = [5] ∧
    (receiveMessage ⟨⟨1, 2⟩, [5]⟩).From = ⟨1, 2⟩ :=
  received_from_eq_sender ⟨[⟨9, 9⟩], fun _ => []⟩ ⟨1, 2⟩ ⟨⟨9, 9⟩, [5]⟩ ⟨9, 9⟩
    ⟨⟨1, 2⟩, [5]⟩
    (by simp [handleFrame, isKeepAliveFrame, zeroId, keepAlive, queueCapacity,
      Function.update_apply])
    (by simp)

/-! ## Claim C7: keep-alives never reach a receive side -/

/-- C7: starting from empty queues, after any trace of relay steps every
frame in every peer's queue originates from a non-keep-alive event, so no
peer ever receives a keep-alive frame as a message, however many
keep-alives any peer sends. -/
theorem no_keepAlive_received (st : ServerState) (events : List (PeerId × Frame))
    (hempty : ∀ r, st.queues r = []) (r : PeerId) (g : Frame)
    (hg : g ∈ (runServer st events).queues r) :
    ∃ e ∈ events, ¬ isKeepAliveFrame e.2 ∧ g = ⟨e.1, e.2.body⟩ := by
  rcases mem_queues_runServer hg with h | h
  · rw [hempty r] at h
    exact absurd h (List.not_mem_nil g)
  · exact h

/-- Witness for C7: a trace of one keep-alive and one real frame leaves only
the rewritten real frame in the recipient's queue. -/
theorem no_keepAlive_received_witness :
    ∃ e ∈ [((⟨3, 4⟩ : PeerId), Frame.mk zeroId keepAlive),
           ((⟨1, 2⟩ : PeerId), Frame.mk ⟨9, 9⟩ [5])],
      ¬ isKeepAliveFrame e.2 ∧ Frame.mk ⟨1, 2⟩ [5] = ⟨e.1, e.2.body⟩ :=
  no_keepAlive_received ⟨[⟨9, 9⟩], fun _ => []⟩
    [(⟨3, 4⟩, ⟨zeroId, keepAlive⟩), (⟨1, 2⟩, ⟨⟨9, 9⟩, [5]⟩)]
    (fun _ => rfl) ⟨9, 9⟩ ⟨⟨1, 2⟩, [5]⟩
    (by simp [runServer, handleFrame, isKeepAliveFrame, zeroId, keepAlive,
      queueCapacity, Function.update_apply])

/-! ## Claim C9: slow-consumer isolation -/

/-- C9: the relay step is a total function (a cross-connection offer never
blocks and a sender's step never fails), and the outbound queue of a peer
`x` that never drains has no influence on frames between other peers:
replacing `x`'s queue by anything (in particular an arbitrarily full one)
changes neither the registry outcome nor any other peer's queue after a
step relaying a frame addressed to some peer other than `x`. -/
theorem slow_consumer_isolation (st : ServerState) (sender : PeerId) (f : Frame)
    (x : PeerId) (q' : List Frame) (hx : f.addr ≠ x) :
    (handleFrame { st with queues := Function.update st.queues x q' } sender f).registry
      = (handleFrame st sender f).registry ∧
    ∀ r, r ≠ x →
      (handleFrame { st with queues := Function.update st.queues x q' } sender f).queues r
        = (handleFrame st sender f).queues r := by
  have hqaddr : Function.update st.queues x q' f.addr = st.queues f.addr :=
    Function.update_noteq hx q' st.queues
  unfold handleFrame
  by_cases hka : isKeepAliveFrame f
  · rw [if_pos hka, if_pos hka]
    exact ⟨rfl, fun r hr => (Function.update_noteq hr q' st.queues)⟩
  · rw [if_neg hka, if_neg hka]
    by_cases hreg : f.addr ∈ st.registry
    · rw [if_pos hreg, if_pos hreg]
      simp only [hqaddr]
      by_cases hfull : (st.queues f.addr).length < queueCapacity
      · rw [if_pos hfull, if_pos hfull]
        refine ⟨rfl, fun r hr => ?_⟩
        simp only [Function.update_apply]
        by_cases hrf : r = f.addr
        · rw [if_pos hrf, if_pos hrf]
        · rw [if_neg hrf, if_neg hrf]
          exact if_neg hr
      · rw [if_neg hfull, if_neg hfull]
        exact ⟨rfl, fun r hr => (Function.update_noteq hr q' st.queues)⟩
    · rw [if_neg hreg, if_neg hreg]
      exact ⟨rfl, fun r hr => (Function.update_noteq hr q' st.queues)⟩

/-- Witness for C9: filling a third peer's queue to capacity does not
disturb a relay step between two other peers. -/
theorem slow_consumer_isolation_witness :
    (handleFrame ⟨[⟨9, 9⟩],
        Function.update (fun _ => []) ⟨3, 4⟩ (List.replicate 100 ⟨⟨1, 2⟩, [0]⟩)⟩
      ⟨1, 2⟩ ⟨⟨9, 9⟩, [5]⟩).registry
      = (handleFrame ⟨[⟨9, 9⟩], fun _ => []⟩ ⟨1, 2⟩ ⟨⟨9, 9⟩, [5]⟩).registry ∧
    ∀ r, r ≠ (⟨3, 4⟩ : PeerId) →
      (handleFrame ⟨[⟨9, 9⟩],
          Function.update (fun _ => []) ⟨3, 4⟩ (List.replicate 100 ⟨⟨1, 2⟩, [0]⟩)⟩
        ⟨1, 2⟩ ⟨⟨9, 9⟩, [5]⟩).queues r
        = (handleFrame ⟨[⟨9, 9⟩], fun _ => []⟩ ⟨1, 2⟩ ⟨⟨9, 9⟩, [5]⟩).queues r :=
  slow_consumer_isolation ⟨[⟨9, 9⟩], fun _ => []⟩ ⟨1, 2⟩ ⟨⟨9, 9⟩, [5]⟩ ⟨3, 4⟩
    (List.replicate 100 ⟨⟨1, 2⟩, [0]⟩) (by decide)

/-! ## The canonical UUID text form

Modelled from the spec: the text form of a `PeerId` is the canonical UUID
string — the 16 serialized bytes in lowercase hex with hyphens in the
8-4-4-4-12 pattern — and parsing is its inverse.
-/

/-- Lowercase hex digit for a value below 16. -/
def hexDigit (n : Nat) : Char :=
  "0123456789abcdef".data.getD n '0'

/-- Two lowercase hex characters for one byte. -/
def byteHex (b : Nat) : List Char :=
  [hexDigit (b / 16), hexDigit (b % 16)]

/-- Value of one hex character, accepting both cases (code points 48–57 are
the decimal digits, 97–102 and 65–70 the lower- and uppercase a–f). -/
def decodeHexDigit (c : Char) : Option Nat :=
  let v := c.toNat
  if 48 ≤ v ∧ v ≤ 57 then some (v - 48)
  else if 97 ≤ v ∧ v ≤ 102 then some (v - 87)
  else if 65 ≤ v ∧ v ≤ 70 then some (v - 55)
  else none

/-- Decode consecutive pairs of hex characters into bytes. -/
def decodeHexPairs : List Char → Option (List Nat)
  | [] => some []
  | [_] => none
  | c1 :: c2 :: rest =>
    match decodeHexDigit c1, decodeHexDigit c2, decodeHexPairs rest with
    | some h, some l, some bs => some ((16 * h + l) :: bs)
    | _, _, _ => none

/-- Modelled from the spec: `(id PeerId) String()` — the canonical UUID
text form of the id's 16 serialized bytes. -/
def PeerId.toString (id : PeerId) : String :=
  let h := ((PeerId.toBytes id).map byteHex).flatten
  ⟨h.take 8 ++ '-' :: ((h.drop 8).take 4 ++ '-' :: ((h.drop 12).take 4 ++
    '-' :: ((h.drop 16).take 4 ++ '-' :: h.drop 20)))⟩

/-- Modelled from the spec: `PeerIdFromString` parses the canonical UUID
text form — 36 characters, hyphens at positions 8, 13, 18 and 23, the
remaining 32 characters hex — into a `PeerId`. -/
def PeerIdFromString (s : String) : Except String PeerId :=
  let cs := s.data
  if cs.length = 36 ∧ cs.getD 8 ' ' = '-' ∧ cs.getD 13 ' ' = '-' ∧
      cs.getD 18 ' ' = '-' ∧ cs.getD 23 ' ' = '-' then
    match decodeHexPairs (cs.take 8 ++ ((cs.drop 9).take 4 ++
        ((cs.drop 14).take 4 ++ ((cs.drop 19).take 4 ++ cs.drop 24)))) with
    | some bytes => readPeerId bytes
    | none => .error "invalid UUID string"
  else .error "invalid UUID string"

theorem decodeHexDigit_hexDigit : ∀ n < 16, decodeHexDigit (hexDigit n) = some n := by
  decide

theorem decodeHexPairs_byteHex (b : Nat) (hb : b < 256) (rest : List Char) :
    decodeHexPairs (hexDigit (b / 16) :: hexDigit (b % 16) :: rest) =
      (decodeHexPairs rest).map (fun bs => b :: bs) := by
  have h1 : decodeHexDigit (hexDigit (b / 16)) = some (b / 16) :=
    decodeHexDigit_hexDigit _ (by omega)
  have h2 : decodeHexDigit (hexDigit (b % 16)) = some (b % 16) :=
    decodeHexDigit_hexDigit _ (by omega)
  have hdm : 16 * (b / 16) + b % 16 = b := Nat.div_add_mod b 16
  simp only [decodeHexPairs, h1, h2]
  cases hrest : decodeHexPairs rest with
  | none => rfl
  | some bs => simp [hdm]

theorem decodeHexPairs_join (bytes : List Nat) (hb : ∀ b ∈ bytes, b < 256) :
    decodeHexPairs ((bytes.map byteHex).flatten) = some bytes := by
  induction bytes with
  | nil => rfl
  | cons b bs ih =>
    simp only [List.map_cons, List.flatten, byteHex, List.cons_append, List.nil_append]
    rw [decodeHexPairs_byteHex b (hb b (List.mem_cons_self b bs)) _,
      ih (fun x hx => hb x (List.mem_cons_of_mem b hx))]
    rfl

theorem toBytes_all_lt (id : PeerId) : ∀ b ∈ id.toBytes, b < 256 := by
  rw [toBytes_eq]
  intro b hb
  rcases List.mem_append.mp hb with h | h
  · exact le64_all_lt id.lo b h
  · exact le64_all_lt id.hi b h

/-! ## Claim C2: text-form round-trip -/

/-- C2: for every `PeerId`, parsing its canonical UUID text form returns the
original id with no error: `PeerIdFromString` inverts the text rendering. -/
theorem peerIdFromString_toString (id : PeerId)
    (hlo : id.lo < 2 ^ 64) (hhi : id.hi < 2 ^ 64) :
    PeerIdFromString (PeerId.toString id) = .ok id := by
  have hstring : PeerIdFromString (PeerId.toString id) =
      (match decodeHexPairs (((PeerId.toBytes id).map byteHex).flatten) with
       | some bytes => readPeerId bytes
       | none => .error "invalid UUID string") := rfl
  rw [hstring, decodeHexPairs_join _ (toBytes_all_lt id)]
  exact readPeerId_toBytes id hlo hhi

/-- Witness for C2 at a concrete id. -/
theorem peerIdFromString_toString_witness :
    PeerIdFromString (PeerId.toString ⟨3, 5⟩) = .ok ⟨3, 5⟩ :=
  peerIdFromString_toString ⟨3, 5⟩ (by decide) (by decide)

end Waddell
